import Mathlib

/-!
Verification of the Player Progression & Combat Resolution subsystem of the
lord_rust repository (a Rust re-implementation of the BBS game
"Legend of the Red Dragon").

The definitions below are a shallow embedding of the source files
`src/game/mod.rs`, `src/game/forest.rs`, `src/game/pvp.rs`,
`src/game/romance.rs` and `src/db/mod.rs`:

* machine integers (`i32`) are modelled as `Int`; the quantities involved are
  small, so two's-complement wraparound is not modelled (Rust would panic on
  overflow in a debug build, and no claim concerns overflow);
* Rust's `/` on `i32` truncates toward zero, so it is modelled by `Int.tdiv`;
* the random draws (`rng.random_range(lo..=hi)`) are modelled as explicit
  inputs; theorems that rely on a draw being in range carry the corresponding
  bound as a hypothesis;
* the Rust `while` loops of `try_level_up`, the forest battle and the duel are
  modelled with an explicit fuel parameter (each loop strictly decreases an
  integer quantity on real inputs, so a computable fuel bound suffices; for
  `try_level_up` the canonical bound `exp.toNat` is proved sufficient);
* the PostgreSQL store is modelled as a `Db` value; a SQL transaction is
  modelled as an atomic step: either the whole list of updates is applied or
  (on any statement/commit failure) the state is left unchanged, which is
  exactly the contract of `BEGIN ... COMMIT` that the code relies on.
-/

namespace Lord

/-- Rust `str::to_lowercase`, modelled character-wise (all names in scope are
ASCII, where per-character lowering coincides with Unicode lowercasing). -/
def strLower (s : String) : String := ⟨s.data.map Char.toLower⟩

/-- Rust `str::trim`: strip leading and trailing whitespace. -/
def strTrim (s : String) : String :=
  ⟨((s.data.dropWhile Char.isWhitespace).reverse.dropWhile Char.isWhitespace).reverse⟩

/-- News events appended to the `news` table, one constructor per
`log_event`/`INSERT INTO news` call site in the source. -/
inductive Event where
  /-- "{name} has reached Level {level}!" (game/mod.rs, try_level_up) -/
  | levelUp (name : String) (level : Int)
  /-- "{player} defeated a {monster} in the forest." (forest.rs, kill of a notable monster) -/
  | monsterKill (pname mname : String)
  /-- "{player} was slain by a {monster} in the forest." (forest.rs, player death) -/
  | forestDeath (pname mname : String)
  /-- "{player} defeated {target} in a duel!" (pvp.rs) -/
  | duelWin (winner loser : String)
  /-- "{player} was killed by {target} in a duel!" (pvp.rs) -/
  | duelLoss (loser winner : String)
  /-- "A new day dawns in the realm. ..." (db/mod.rs, daily_reset) -/
  | reset
  /-- "{name} has married Violet, the tavern barmaid!" (romance.rs) -/
  | marriage (name : String)
  deriving DecidableEq

/-- The `Player` struct of `src/game/mod.rs` (the `last_login` timestamp is
not modelled: no claim mentions it). -/
structure Player where
  id : Int
  name : String
  password : String
  level : Int
  exp : Int
  gold : Int
  current_hp : Int
  max_hp : Int
  attack : Int
  defense : Int
  forest_fights : Int
  alive : Bool
  romance : Int
  spouse : String
  deriving DecidableEq

/-- `MAX_DAILY_FOREST_FIGHTS` from `src/game/mod.rs`. -/
def MAX_DAILY_FOREST_FIGHTS : Int := 10

/-- The row inserted by `create_player` (db/mod.rs):
`VALUES ($1, $2, 1, 0, 100, 20, 20, 5, 2, MAX_DAILY_FOREST_FIGHTS, TRUE, 0, '', NOW())`. -/
def starting_player (id : Int) (name password : String) : Player :=
  { id := id, name := name, password := password, level := 1, exp := 0,
    gold := 100, current_hp := 20, max_hp := 20, attack := 5, defense := 2,
    forest_fights := MAX_DAILY_FOREST_FIGHTS, alive := true, romance := 0,
    spouse := "" }

/-- A freshly created player, as the in-memory value matters (id is
irrelevant to the progression claims). -/
def newPlayer (name : String) : Player := starting_player 1 name ""

/-- `Player::xp_to_next_level` from `src/game/mod.rs`: `self.level * 100`. -/
def Player.xp_to_next_level (p : Player) : Int := p.level * 100

/-- One iteration of the `try_level_up` loop body (game/mod.rs lines 113-120). -/
def levelUpStep (p : Player) : Player :=
  { p with exp := p.exp - p.xp_to_next_level, level := p.level + 1,
           max_hp := p.max_hp + 10, current_hp := p.max_hp + 10,
           attack := p.attack + 2, defense := p.defense + 1 }

/-- The `while player.exp >= player.xp_to_next_level()` loop of
`try_level_up`, with explicit fuel.  One `Event.levelUp` is produced per
iteration (the source spawns one `log_event` per iteration).  On every state
the Rust code can reach (`level ≥ 1`), each iteration decreases `exp` by at
least 100, so `exp.toNat` fuel is enough (for `level ≤ 0` the Rust loop would
not terminate; such states are unreachable). -/
def try_level_up_fuel : Nat → Player → Player × List Event
  | 0, p => (p, [])
  | fuel + 1, p =>
    if p.xp_to_next_level ≤ p.exp then
      let p1 := levelUpStep p
      let r := try_level_up_fuel fuel p1
      (r.1, Event.levelUp p1.name p1.level :: r.2)
    else (p, [])

/-- `try_level_up` from `src/game/mod.rs`, run with the canonical
(sufficient) fuel bound. -/
def try_level_up (p : Player) : Player × List Event :=
  try_level_up_fuel p.exp.toNat p

/-- The ephemeral `Monster` struct of `src/game/forest.rs`. -/
structure Monster where
  name : String
  hp : Int
  attack : Int
  exp_reward : Int
  gold_reward : Int
  deriving DecidableEq

/-- `MONSTER_TEMPLATES` from `src/game/forest.rs`: (name, base HP, base attack). -/
def MONSTER_TEMPLATES : List (String × Int × Int) :=
  [("Wild Boar", 15, 4), ("Goblin", 20, 5), ("Ogre", 30, 6),
   ("Giant Spider", 25, 5), ("Black Knight", 35, 8), ("Forest Dragon", 50, 12)]

/-- `generate_monster` from `src/game/forest.rs`.  The three random draws are
explicit inputs: `idx` is the template index (drawn from `0..len`), `hpRoll`
from `0..=5*player_level`, `atkRoll` from `0..=player_level`, `goldRoll` from
`1..=attack*3`.  Rust `/` on `i32` is `Int.tdiv`. -/
def generate_monster (player_level : Int) (idx : Nat)
    (hpRoll atkRoll goldRoll : Int) : Monster :=
  let t := MONSTER_TEMPLATES.getD idx ("Wild Boar", 15, 4)
  let level_factor : Int := 1 + (player_level - 1).tdiv 2
  let hp := t.2.1 * level_factor + hpRoll
  let attack := t.2.2 * level_factor + atkRoll
  { name := t.1, hp := hp, attack := attack,
    exp_reward := max (hp.tdiv 2 + attack) 1,
    gold_reward := max goldRoll 1 }

/-- Victory rewards (forest.rs lines 75-76): `exp += exp_reward; gold += gold_reward`. -/
def gainRewards (p : Player) (m : Monster) : Player :=
  { p with exp := p.exp + m.exp_reward, gold := p.gold + m.gold_reward }

/-- The player state after slaying a monster: rewards then `try_level_up`. -/
def victoryResult (p : Player) (m : Monster) : Player :=
  (try_level_up (gainRewards p m)).1

/-- Events emitted on a monster kill: the level-up events, then the kill news
only when `monster.attack > 10` (the noise filter of forest.rs line 82). -/
def victoryEvents (p : Player) (m : Monster) : List Event :=
  (try_level_up (gainRewards p m)).2 ++
    (if 10 < m.attack then [Event.monsterKill p.name m.name] else [])

/-- The inner battle loop of `explore_forest` (forest.rs lines 65-102):
`while player.alive && monster.hp > 0`.  `pdmg r` is the player's damage draw
of round `r` (from `1..=player.attack`), `mdmg r` the monster's (from
`1..=monster.attack`).  Returns final player, final monster and the news
events emitted. -/
def battleFuel (pdmg mdmg : Nat → Int) :
    Nat → Nat → Player → Monster → Player × Monster × List Event
  | 0, _, p, m => (p, m, [])
  | fuel + 1, r, p, m =>
    if p.alive = true ∧ 0 < m.hp then
      if m.hp - pdmg r ≤ 0 then
        (victoryResult p m, { m with hp := 0 }, victoryEvents p m)
      else
        if p.current_hp - mdmg r ≤ 0 then
          ({ p with current_hp := 0, alive := false },
           { m with hp := m.hp - pdmg r },
           [Event.forestDeath p.name m.name])
        else
          battleFuel pdmg mdmg fuel (r + 1)
            { p with current_hp := p.current_hp - mdmg r }
            { m with hp := m.hp - pdmg r }
    else (p, m, [])

/-- One iteration of the outer `explore_forest` loop: a full battle against
one monster followed by the unconditional `player.forest_fights -= 1`
(forest.rs line 104, executed exactly once per encounter, whatever the
outcome).  The loop guard `forest_fights > 0 && alive` is at the call site. -/
def forestEncounter (p : Player) (m : Monster) (pdmg mdmg : Nat → Int)
    (fuel : Nat) : Player × List Event :=
  let res := battleFuel pdmg mdmg fuel 0 p m
  ({ res.1 with forest_fights := res.1.forest_fights - 1 }, res.2.2)

/-- Settlement when the duel target is defeated (pvp.rs lines 72-94): clamp
the target, loot `target.gold / 2` when positive, award `target.level * 50`
experience when positive (with level-ups), log the duel unconditionally. -/
def duelVictorySettle (p t : Player) : Player × Player × List Event :=
  let t1 : Player := { t with alive := false, current_hp := 0 }
  let stolen := t1.gold.tdiv 2
  let t2 : Player := if 0 < stolen then { t1 with gold := t1.gold - stolen } else t1
  let p1 : Player := if 0 < stolen then { p with gold := p.gold + stolen } else p
  let xp := t2.level * 50
  let pr : Player × List Event :=
    if 0 < xp then try_level_up { p1 with exp := p1.exp + xp } else (p1, [])
  (pr.1, t2, pr.2 ++ [Event.duelWin p.name t.name])

/-- Settlement when the challenger is defeated (pvp.rs lines 100-115): clamp
the challenger, the opponent loots `player.gold / 2` when positive, no
experience transfer, log the loss. -/
def duelDefeatSettle (p t : Player) : Player × Player × List Event :=
  let p1 : Player := { p with alive := false, current_hp := 0 }
  let stolen := p1.gold.tdiv 2
  let p2 : Player := if 0 < stolen then { p1 with gold := p1.gold - stolen } else p1
  let t2 : Player := if 0 < stolen then { t with gold := t.gold + stolen } else t
  (p2, t2, [Event.duelLoss p.name t.name])

/-- The duel loop of `challenge_player` (pvp.rs lines 67-118):
`while player.alive && target.alive`, challenger strikes first every round.
`pdmg r` is the challenger's damage draw of round `r` (from
`1..=player.attack`), `tdmg r` the target's (from `1..=target.attack`). -/
def duelFuel (pdmg tdmg : Nat → Int) :
    Nat → Nat → Player → Player → Player × Player × List Event
  | 0, _, p, t => (p, t, [])
  | fuel + 1, r, p, t =>
    if p.alive = true ∧ t.alive = true then
      if t.current_hp - pdmg r ≤ 0 then
        duelVictorySettle p { t with current_hp := t.current_hp - pdmg r }
      else
        if p.current_hp - tdmg r ≤ 0 then
          duelDefeatSettle { p with current_hp := p.current_hp - tdmg r }
            { t with current_hp := t.current_hp - pdmg r }
        else
          duelFuel pdmg tdmg fuel (r + 1)
            { p with current_hp := p.current_hp - tdmg r }
            { t with current_hp := t.current_hp - pdmg r }
    else (p, t, [])

/-- Buying a drink in the tavern (romance.rs lines 122-148): costs 5 gold,
heals `max(max_hp/4, 1)` clamped to `max_hp`, plus a bonus
`max(max_hp/8, 1)` when married to Violet. -/
def buy_drink (p : Player) : Player :=
  if p.gold < 5 then p
  else
    let p1 : Player := { p with gold := p.gold - 5 }
    let heal := max (p1.max_hp.tdiv 4) 1
    let p2 : Player := { p1 with current_hp := min (p1.current_hp + heal) p1.max_hp }
    if strLower p2.spouse = "violet" then
      let bonus := max (p2.max_hp.tdiv 8) 1
      { p2 with current_hp := min (p2.current_hp + bonus) p2.max_hp }
    else p2

/-- `flirt_with_violet` from romance.rs: no-op when already married, else
increment `romance`; the early return for a negative stage index mirrors
lines 60-65; marriage triggers at `romance ≥ 5`. -/
def flirt_with_violet (p : Player) : Player × List Event :=
  if strLower p.spouse = "violet" then (p, [])
  else
    let p1 : Player := { p with romance := p.romance + 1 }
    if min p1.romance 5 - 1 < 0 then (p1, [])
    else if 5 ≤ p1.romance then
      ({ p1 with spouse := "Violet" }, [Event.marriage p1.name])
    else (p1, [])

/-- The per-player effect of the daily reset bulk update (db/mod.rs line 175):
`SET forest_fights = MAX, alive = TRUE, current_hp = max_hp`. -/
def resetPlayer (p : Player) : Player :=
  { p with forest_fights := MAX_DAILY_FOREST_FIGHTS, alive := true,
           current_hp := p.max_hp }

/-- The database state: the `players` table, the append-only `news` table and
the `last_reset` row of `game_state`.  `next_id` models the `SERIAL` id
sequence. -/
structure Db where
  next_id : Int
  players : List Player
  news : List Event
  last_reset : Option String
  deriving DecidableEq

/-- `daily_reset` from `src/db/mod.rs` (lines 164-192).  The marker
comparison is `last_reset.unwrap_or("") < today` on date strings; the whole
read-compare-write runs inside one transaction, modelled as a single atomic
step. -/
def daily_reset (today : String) (db : Db) : Db :=
  if db.last_reset.getD "" < today then
    { db with players := db.players.map resetPlayer,
              news := db.news ++ [Event.reset],
              last_reset := some today }
  else db

/-- The `last_reset` seeding of `init_db_pool` (db/mod.rs lines 141-144):
`INSERT ... ON CONFLICT (key) DO NOTHING` with today's date. -/
def init_db_seed (today : String) (db : Db) : Db :=
  match db.last_reset with
  | none => { db with last_reset := some today }
  | some _ => db

/-- Storage-layer errors relevant to the claims. -/
inductive DbError where
  /-- violation of the `UNIQUE` constraint on `players.name` -/
  | uniqueViolation
  deriving DecidableEq

/-- `create_player` from `src/db/mod.rs` (lines 219-269).  The name is
trimmed; an empty (trimmed) password is stored as `""`, otherwise the Argon2
hash is stored (the hash function is an opaque parameter).  The insert fails
exactly when the `UNIQUE` constraint on `name` is violated, which in the
schema of `init_db_pool` is an exact-match (case-sensitive) constraint: the
only index on `LOWER(name)` is a non-unique lookup index. -/
def create_player (hash : String → String) (db : Db)
    (name password : String) : Except DbError (Db × Player) :=
  let normalized := strTrim name
  let hashed := if strTrim password = "" then "" else hash (strTrim password)
  if db.players.any (fun q => q.name = normalized) then
    Except.error DbError.uniqueViolation
  else
    let p := starting_player db.next_id normalized hashed
    Except.ok ({ db with next_id := db.next_id + 1,
                         players := db.players ++ [p] }, p)

/-- `get_player_by_name` from db/mod.rs: case-insensitive lookup
(`WHERE LOWER(name) = LOWER($1)` on the trimmed input). -/
def get_player_by_name (db : Db) (name : String) : Option Player :=
  db.players.find? (fun q => strLower q.name == strLower (strTrim name))

/-- The field set written by the duel-settlement `UPDATE players SET ...`
statement (pvp.rs lines 124-128): every mutable field except `name`,
`password` and `id`. -/
def mergeFields (upd q : Player) : Player :=
  { q with level := upd.level, exp := upd.exp, gold := upd.gold,
           current_hp := upd.current_hp, max_hp := upd.max_hp,
           attack := upd.attack, defense := upd.defense,
           forest_fights := upd.forest_fights, alive := upd.alive,
           romance := upd.romance, spouse := upd.spouse }

/-- Effect of one `UPDATE players ... WHERE id=$12` statement on one row. -/
def applyUpdate (upd q : Player) : Player :=
  if q.id = upd.id then mergeFields upd q else q

/-- A transaction consisting of a list of player updates (pvp.rs lines
121-165: `BEGIN`, one UPDATE per player, `COMMIT`).  The atomicity and
isolation of a SQL transaction are assumptions of the model: a failure of any
statement or of the commit rolls the whole transaction back, and no
intermediate state is visible outside the transaction.  `fails` says whether
any of the statements or the commit failed. -/
def run_update_tx (db : Db) (updates : List Player) (fails : Bool) : Db :=
  if fails then db
  else { db with players :=
           updates.foldl (fun ps u => ps.map (applyUpdate u)) db.players }

/-- The duel settlement write of `challenge_player`: both records in one
transaction. -/
def save_duel (db : Db) (p t : Player) (fails : Bool) : Db :=
  run_update_tx db [p, t] fails

/-- Lookup of a stored player record by id (`get_player_by_id`). -/
def findById (db : Db) (i : Int) : Option Player :=
  db.players.find? (fun q => q.id == i)

/-- The invariant maintained by every reachable player state (the claimed
invariants plus the auxiliary facts needed for the induction: `level ≥ 1`,
`max_hp ≥ 20`, `attack ≥ 5`). -/
def PlayerInv (p : Player) : Prop :=
  1 ≤ p.level ∧ 0 ≤ p.exp ∧ p.exp < p.level * 100 ∧
  0 ≤ p.current_hp ∧ p.current_hp ≤ p.max_hp ∧
  (p.alive = true ↔ 0 < p.current_hp) ∧
  0 ≤ p.forest_fights ∧ 20 ≤ p.max_hp ∧ 5 ≤ p.attack

/-- One core operation applied to a player's state, with the guards of the
call sites in town.rs / forest.rs / pvp.rs and the ranges of the random
draws as hypotheses.  A game session is a sequence of such steps. -/
inductive Step : Player → Player → Prop where
  /-- one forest encounter (town menu option 1, one iteration of the
  `explore_forest` outer loop); guards: `forest_fights > 0 && alive` -/
  | forest (p : Player) (idx : Nat) (hpRoll atkRoll goldRoll : Int)
      (pdmg mdmg : Nat → Int) (fuel : Nat)
      (halive : p.alive = true) (hfights : 0 < p.forest_fights)
      (hidx : idx < MONSTER_TEMPLATES.length)
      (hhp : 0 ≤ hpRoll ∧ hpRoll ≤ 5 * p.level)
      (hatk : 0 ≤ atkRoll ∧ atkRoll ≤ p.level)
      (hgold : 1 ≤ goldRoll)
      (hpd : ∀ i, 1 ≤ pdmg i ∧ pdmg i ≤ p.attack)
      (hmd : ∀ i, 1 ≤ mdmg i ∧
        mdmg i ≤ (generate_monster p.level idx hpRoll atkRoll goldRoll).attack) :
      Step p (forestEncounter p
        (generate_monster p.level idx hpRoll atkRoll goldRoll) pdmg mdmg fuel).1
  /-- a duel initiated by this player (town menu option 3); guards: both alive -/
  | duelChallenger (p t : Player) (pdmg tdmg : Nat → Int) (fuel : Nat)
      (halive : p.alive = true) (htalive : t.alive = true)
      (hpd : ∀ i, 1 ≤ pdmg i ∧ pdmg i ≤ p.attack)
      (htd : ∀ i, 1 ≤ tdmg i ∧ tdmg i ≤ t.attack) :
      Step p (duelFuel pdmg tdmg fuel 0 p t).1
  /-- a duel in which this player is the challenged target -/
  | duelTarget (p c : Player) (cdmg pdmg : Nat → Int) (fuel : Nat)
      (hcalive : c.alive = true) (halive : p.alive = true)
      (hcd : ∀ i, 1 ≤ cdmg i ∧ cdmg i ≤ c.attack)
      (hpd : ∀ i, 1 ≤ pdmg i ∧ pdmg i ≤ p.attack) :
      Step p (duelFuel cdmg pdmg fuel 0 c p).2.1
  /-- buying a tavern drink (tavern option 2; the town loop runs only while alive) -/
  | tavernDrink (p : Player) (halive : p.alive = true) : Step p (buy_drink p)
  /-- flirting with Violet (tavern option 1) -/
  | flirt (p : Player) (halive : p.alive = true) : Step p (flirt_with_violet p).1
  /-- a standalone application of the Leveling Policy -/
  | leveling (p : Player) : Step p (try_level_up p).1
  /-- the per-record effect of the daily reset bulk update -/
  | dailyReset (p : Player) : Step p (resetPlayer p)

/-- Player states reachable from the fixed creation state by core operations. -/
inductive Reachable : Player → Prop where
  | start (name : String) : Reachable (newPlayer name)
  | step {p q : Player} : Reachable p → Step p q → Reachable q

/-- What one call to the Leveling Policy guarantees, relating input and
output: the exp invariant is (re)established, the monotone fields grow, the
frame fields are untouched, and `current_hp` is either untouched (no
iteration) or equal to the new `max_hp` (full heal). -/
def LevelUpOut (p q : Player) : Prop :=
  1 ≤ q.level ∧ 0 ≤ q.exp ∧ q.exp < q.level * 100 ∧
  p.level ≤ q.level ∧ p.attack ≤ q.attack ∧ p.max_hp ≤ q.max_hp ∧
  q.alive = p.alive ∧ q.forest_fights = p.forest_fights ∧ q.gold = p.gold ∧
  ((q.current_hp = p.current_hp ∧ q.max_hp = p.max_hp) ∨ q.current_hp = q.max_hp)

/-- A store holding one player named "Alice" (used to exercise
`create_player` on a name that differs only in case). -/
def dbAlice : Db :=
  { next_id := 2, players := [starting_player 1 "Alice" ""], news := [],
    last_reset := none }

/-- A dead player with an exhausted fight budget, to exercise the reset. -/
def deadPlayer : Player :=
  { (starting_player 3 "Ghost" "") with
      current_hp := 0, alive := false, forest_fights := 0 }

/-- A store whose reset marker is one day old. -/
def dbStale : Db :=
  { next_id := 4, players := [starting_player 1 "Alice" "", deadPlayer],
    news := [], last_reset := some "2025-10-11" }

/-- The same store with its reset marker already current. -/
def dbCurrent : Db := { dbStale with last_reset := some "2025-10-12" }

/-- A fresh store: no players, no news, no reset marker. -/
def dbFresh : Db := { next_id := 1, players := [], news := [], last_reset := none }

/-- A player entering the forest with 5 hit points. -/
def heroAt5 : Player := { newPlayer "Hero" with current_hp := 5 }

/-- A concrete strong monster (retaliation can exceed 5 damage). -/
def strongMonster : Monster :=
  { name := "Forest Dragon", hp := 100, attack := 50, exp_reward := 60,
    gold_reward := 10 }

/-! ### Leveling Policy lemmas -/

/-- Fields that no iteration of the level-up loop touches. -/
theorem try_level_up_fuel_frame (fuel : Nat) : ∀ p : Player,
    (try_level_up_fuel fuel p).1.gold = p.gold ∧
    (try_level_up_fuel fuel p).1.alive = p.alive ∧
    (try_level_up_fuel fuel p).1.forest_fights = p.forest_fights ∧
    (try_level_up_fuel fuel p).1.name = p.name := by
  induction fuel with
  | zero => intro p; simp [try_level_up_fuel]
  | succ n ih =>
    intro p
    by_cases hc : p.xp_to_next_level ≤ p.exp
    · simpa [try_level_up_fuel, hc, levelUpStep] using ih (levelUpStep p)
    · simp [try_level_up_fuel, hc]

/-- The level-up loop re-establishes the experience invariant and only grows
the stats, provided the player's level is at least 1 (true of every reachable
state) and the fuel dominates the iteration count. -/
theorem try_level_up_fuel_out (fuel : Nat) : ∀ p : Player,
    1 ≤ p.level → 0 ≤ p.exp → p.exp < ((fuel : Int) + 1) * 100 →
    LevelUpOut p (try_level_up_fuel fuel p).1 := by
  induction fuel with
  | zero =>
    intro p hl he hf
    have h100 : (100 : Int) ≤ p.level * 100 := by nlinarith
    refine ⟨hl, he, ?_, le_refl _, le_refl _, le_refl _, ?_⟩
    · simp only [Nat.cast_zero, zero_add, one_mul] at hf
      exact lt_of_lt_of_le hf h100
    · simp [try_level_up_fuel]
  | succ n ih =>
    intro p hl he hf
    have hL : (levelUpStep p).level = p.level + 1 := rfl
    have hE : (levelUpStep p).exp = p.exp - p.level * 100 := rfl
    have hA : (levelUpStep p).attack = p.attack + 2 := rfl
    have hM : (levelUpStep p).max_hp = p.max_hp + 10 := rfl
    have hC : (levelUpStep p).current_hp = p.max_hp + 10 := rfl
    have hAl : (levelUpStep p).alive = p.alive := rfl
    have hF : (levelUpStep p).forest_fights = p.forest_fights := rfl
    have hG : (levelUpStep p).gold = p.gold := rfl
    by_cases hc : p.xp_to_next_level ≤ p.exp
    · have h100 : (100 : Int) ≤ p.level * 100 := by nlinarith
      have hc' : p.level * 100 ≤ p.exp := hc
      have hf' : p.exp < ((n : Int) + 1 + 1) * 100 := by push_cast at hf; linarith
      have hstep := ih (levelUpStep p)
        (by rw [hL]; omega)
        (by rw [hE]; omega)
        (by rw [hE]; linarith)
      obtain ⟨q1, q2, q3, q4, q5, q6, q7, q8, q9, q10⟩ := hstep
      have heq : (try_level_up_fuel (n + 1) p).1 =
          (try_level_up_fuel n (levelUpStep p)).1 := by
        simp [try_level_up_fuel, hc]
      rw [heq]
      rw [hL] at q4
      rw [hA] at q5
      rw [hM] at q6
      rw [hAl] at q7
      rw [hF] at q8
      rw [hG] at q9
      refine ⟨q1, q2, q3, by omega, by omega, by omega, q7, q8, q9, ?_⟩
      rcases q10 with ⟨hcur, hmax⟩ | hcur
      · right
        rw [hC] at hcur
        rw [hM] at hmax
        omega
      · right; exact hcur
    · have hlt : p.exp < p.level * 100 := by
        simpa [Player.xp_to_next_level] using lt_of_not_le hc
      have hid : (try_level_up_fuel (n + 1) p).1 = p := by
        simp [try_level_up_fuel, hc]
      rw [hid]
      exact ⟨hl, he, hlt, le_refl _, le_refl _, le_refl _, rfl, rfl, rfl,
        Or.inl ⟨rfl, rfl⟩⟩

/-- The canonical fuel bound `exp.toNat` dominates the iteration count. -/
theorem try_level_up_out (p : Player) (hl : 1 ≤ p.level) (he : 0 ≤ p.exp) :
    LevelUpOut p (try_level_up p).1 := by
  refine try_level_up_fuel_out p.exp.toNat p hl he ?_
  have h1 : p.exp = (p.exp.toNat : Int) := (Int.toNat_of_nonneg he).symm
  nlinarith [Int.natCast_nonneg p.exp.toNat]

/-- Frame facts for `try_level_up` at the canonical fuel. -/
theorem try_level_up_frame (p : Player) :
    (try_level_up p).1.gold = p.gold ∧ (try_level_up p).1.alive = p.alive ∧
    (try_level_up p).1.forest_fights = p.forest_fights ∧
    (try_level_up p).1.name = p.name :=
  try_level_up_fuel_frame p.exp.toNat p

/-- Awarding experience (and any gold change) to a live invariant-satisfying
player and then running the Leveling Policy yields an invariant-satisfying
player. -/
theorem playerInv_try_level_up_gain (p : Player) (hinv : PlayerInv p)
    (halive : p.alive = true) (e g : Int) (he : 0 ≤ e) :
    PlayerInv (try_level_up { p with exp := e, gold := g }).1 := by
  obtain ⟨i1, i2, i3, i4, i5, i6, i7, i8, i9⟩ := hinv
  have hout := try_level_up_out { p with exp := e, gold := g } i1 he
  obtain ⟨q1, q2, q3, q4, q5, q6, q7, q8, q9, q10⟩ := hout
  have eA : ({ p with exp := e, gold := g } : Player).attack = p.attack := rfl
  have eM : ({ p with exp := e, gold := g } : Player).max_hp = p.max_hp := rfl
  have eC : ({ p with exp := e, gold := g } : Player).current_hp = p.current_hp := rfl
  have eAl : ({ p with exp := e, gold := g } : Player).alive = p.alive := rfl
  have eF : ({ p with exp := e, gold := g } : Player).forest_fights = p.forest_fights := rfl
  rw [eA] at q5
  rw [eM] at q6
  rw [eAl] at q7
  rw [eF] at q8
  rw [eC, eM] at q10
  have hhp0 : 0 < p.current_hp := i6.mp halive
  refine ⟨q1, q2, q3, ?_, ?_, ?_, ?_, by omega, by omega⟩
  · rcases q10 with ⟨hcur, _⟩ | hcur
    · rw [hcur]; exact i4
    · rw [hcur]; omega
  · rcases q10 with ⟨hcur, hmax⟩ | hcur
    · rw [hcur, hmax]; exact i5
    · rw [hcur]
  · rw [q7]
    constructor
    · intro _
      rcases q10 with ⟨hcur, _⟩ | hcur
      · rw [hcur]; exact hhp0
      · rw [hcur]; omega
    · intro _; exact halive
  · omega

/-- Leveling a player that already satisfies the invariant changes nothing:
`exp < level * 100` falsifies the loop condition at once. -/
theorem try_level_up_noop (p : Player) (h : p.exp < p.level * 100) :
    try_level_up p = (p, []) := by
  unfold try_level_up
  cases hn : p.exp.toNat with
  | zero => simp [try_level_up_fuel]
  | succ k =>
    have hc : ¬ p.xp_to_next_level ≤ p.exp := by
      simp only [Player.xp_to_next_level]; omega
    simp [try_level_up_fuel, hc]

/-! ### Forest battle lemmas -/

/-- The battle loop never touches `forest_fights`. -/
theorem battleFuel_fights (pdmg mdmg : Nat → Int) (fuel : Nat) :
    ∀ (r : Nat) (p : Player) (m : Monster),
      (battleFuel pdmg mdmg fuel r p m).1.forest_fights = p.forest_fights := by
  induction fuel with
  | zero => intro r p m; simp [battleFuel]
  | succ n ih =>
    intro r p m
    by_cases hg : p.alive = true ∧ 0 < m.hp
    · by_cases hv : m.hp - pdmg r ≤ 0
      · have hframe := try_level_up_fuel_frame (gainRewards p m).exp.toNat (gainRewards p m)
        simp only [battleFuel, hg, hv, if_true, if_pos]
        simpa [victoryResult, try_level_up, gainRewards] using hframe.2.2.1
      · by_cases hd : p.current_hp - mdmg r ≤ 0
        · simp [battleFuel, hg, hv, hd]
        · simpa [battleFuel, hg, hv, hd] using
            ih (r + 1) { p with current_hp := p.current_hp - mdmg r }
              { m with hp := m.hp - pdmg r }
    · simp [battleFuel, hg]

/-- The battle loop preserves the player invariant, for any monster whose
`exp_reward` is non-negative (true of every generated monster) and any
monster damage draws of at least 1 (the range `1..=attack` guarantees it). -/
theorem battleFuel_inv (pdmg mdmg : Nat → Int) (fuel : Nat) :
    ∀ (r : Nat) (p : Player) (m : Monster), PlayerInv p →
      (∀ i, 1 ≤ mdmg i) → 0 ≤ m.exp_reward →
      PlayerInv (battleFuel pdmg mdmg fuel r p m).1 := by
  induction fuel with
  | zero => intro r p m hinv _ _; simpa [battleFuel] using hinv
  | succ n ih =>
    intro r p m hinv hmd hexp
    by_cases hg : p.alive = true ∧ 0 < m.hp
    · by_cases hv : m.hp - pdmg r ≤ 0
      · have hres : (battleFuel pdmg mdmg (n + 1) r p m).1 = victoryResult p m := by
          simp [battleFuel, hg, hv]
        rw [hres]
        unfold victoryResult
        have hgr : gainRewards p m =
            { p with exp := p.exp + m.exp_reward, gold := p.gold + m.gold_reward } := rfl
        rw [hgr]
        exact playerInv_try_level_up_gain p hinv hg.1 (p.exp + m.exp_reward)
          (p.gold + m.gold_reward)
          (by have h2 : 0 ≤ p.exp := hinv.2.1; omega)
      · by_cases hd : p.current_hp - mdmg r ≤ 0
        · have hres : (battleFuel pdmg mdmg (n + 1) r p m).1 =
              { p with current_hp := 0, alive := false } := by
            simp [battleFuel, hg, hv, hd]
          rw [hres]
          obtain ⟨i1, i2, i3, i4, i5, i6, i7, i8, i9⟩ := hinv
          exact ⟨i1, i2, i3, le_refl 0, (by omega : (0 : Int) ≤ p.max_hp),
            by simp, i7, i8, i9⟩
        · have hres : (battleFuel pdmg mdmg (n + 1) r p m).1 =
              (battleFuel pdmg mdmg n (r + 1) { p with current_hp := p.current_hp - mdmg r }
                { m with hp := m.hp - pdmg r }).1 := by
            simp [battleFuel, hg, hv, hd]
          rw [hres]
          refine ih (r + 1) _ _ ?_ hmd hexp
          obtain ⟨i1, i2, i3, i4, i5, i6, i7, i8, i9⟩ := hinv
          have h1 : 1 ≤ mdmg r := hmd r
          refine ⟨i1, i2, i3, by simp; omega, by simp; omega, ?_, i7, i8, i9⟩
          simp only
          rw [hg.1]
          simp only [true_iff]
          omega
    · simpa [battleFuel, hg] using hinv

/-! ### Duel lemmas -/

/-- The winner's record after a victory settlement still satisfies the
invariant (the loser argument is the already-hp-decremented target). -/
theorem duelVictorySettle_fst_inv (p t : Player) (hinv : PlayerInv p)
    (halive : p.alive = true) : PlayerInv (duelVictorySettle p t).1 := by
  obtain ⟨i1, i2, i3, i4, i5, i6, i7, i8, i9⟩ := hinv
  unfold duelVictorySettle
  simp only
  split_ifs with hs hx hx
  · refine playerInv_try_level_up_gain p ⟨i1, i2, i3, i4, i5, i6, i7, i8, i9⟩ halive _ _ ?_
    simp only at hx ⊢
    omega
  · exact ⟨i1, i2, i3, i4, i5, i6, i7, i8, i9⟩
  · refine playerInv_try_level_up_gain p ⟨i1, i2, i3, i4, i5, i6, i7, i8, i9⟩ halive _ _ ?_
    simp only at hx ⊢
    omega
  · exact ⟨i1, i2, i3, i4, i5, i6, i7, i8, i9⟩

/-- The loser's record after a victory settlement satisfies the invariant,
given the parts of the invariant that the hp decrement cannot break. -/
theorem duelVictorySettle_snd_inv (p t : Player) (h1 : 1 ≤ t.level)
    (h2 : 0 ≤ t.exp) (h3 : t.exp < t.level * 100) (h7 : 0 ≤ t.forest_fights)
    (h8 : 20 ≤ t.max_hp) (h9 : 5 ≤ t.attack) :
    PlayerInv (duelVictorySettle p t).2.1 := by
  unfold duelVictorySettle
  simp only
  split_ifs with hs
  · exact ⟨h1, h2, h3, le_refl 0, (by omega : (0 : Int) ≤ t.max_hp), by simp, h7, h8, h9⟩
  · exact ⟨h1, h2, h3, le_refl 0, (by omega : (0 : Int) ≤ t.max_hp), by simp, h7, h8, h9⟩

/-- The challenger's record after a defeat settlement (the challenger
argument is already hp-decremented). -/
theorem duelDefeatSettle_fst_inv (p t : Player) (h1 : 1 ≤ p.level)
    (h2 : 0 ≤ p.exp) (h3 : p.exp < p.level * 100) (h7 : 0 ≤ p.forest_fights)
    (h8 : 20 ≤ p.max_hp) (h9 : 5 ≤ p.attack) :
    PlayerInv (duelDefeatSettle p t).1 := by
  unfold duelDefeatSettle
  simp only
  split_ifs with hs
  · exact ⟨h1, h2, h3, le_refl 0, (by omega : (0 : Int) ≤ p.max_hp), by simp, h7, h8, h9⟩
  · exact ⟨h1, h2, h3, le_refl 0, (by omega : (0 : Int) ≤ p.max_hp), by simp, h7, h8, h9⟩

/-- The surviving opponent's record after a defeat settlement keeps the
invariant: only its gold can change. -/
theorem duelDefeatSettle_snd_inv (p t : Player) (hinv : PlayerInv t) :
    PlayerInv (duelDefeatSettle p t).2.1 := by
  obtain ⟨i1, i2, i3, i4, i5, i6, i7, i8, i9⟩ := hinv
  unfold duelDefeatSettle
  simp only
  split_ifs with hs
  · exact ⟨i1, i2, i3, i4, i5, i6, i7, i8, i9⟩
  · exact ⟨i1, i2, i3, i4, i5, i6, i7, i8, i9⟩

/-- Gold movement of a victory settlement: the winner gains exactly
`loser.gold / 2` (truncating division) and the loser loses exactly that
amount; the winner stays alive and the loser is dead. -/
theorem duelVictorySettle_gold (p t : Player) (ht : 0 ≤ t.gold) :
    (duelVictorySettle p t).1.gold = p.gold + t.gold.tdiv 2 ∧
    (duelVictorySettle p t).2.1.gold = t.gold - t.gold.tdiv 2 ∧
    (duelVictorySettle p t).1.alive = p.alive ∧
    (duelVictorySettle p t).2.1.alive = false := by
  have hnn : 0 ≤ t.gold.tdiv 2 := Int.tdiv_nonneg ht (by norm_num)
  unfold duelVictorySettle
  simp only
  split_ifs with hs hx hx
  · have hfr := try_level_up_frame
      { p with exp := p.exp + t.level * 50, gold := p.gold + t.gold.tdiv 2 }
    exact ⟨by rw [hfr.1], rfl, by rw [hfr.2.1], rfl⟩
  · exact ⟨rfl, rfl, rfl, rfl⟩
  · have hfr := try_level_up_frame { p with exp := p.exp + t.level * 50 }
    refine ⟨?_, ?_, by rw [hfr.2.1], rfl⟩
    · rw [hfr.1]; simp only; omega
    · simp only; omega
  · refine ⟨by simp only; omega, by simp only; omega, rfl, rfl⟩

/-- Gold movement of a defeat settlement: the surviving opponent gains
exactly `challenger.gold / 2`, the challenger loses exactly that amount and
is dead; the opponent's alive flag is untouched. -/
theorem duelDefeatSettle_gold (p t : Player) (hp : 0 ≤ p.gold) :
    (duelDefeatSettle p t).1.gold = p.gold - p.gold.tdiv 2 ∧
    (duelDefeatSettle p t).2.1.gold = t.gold + p.gold.tdiv 2 ∧
    (duelDefeatSettle p t).1.alive = false ∧
    (duelDefeatSettle p t).2.1.alive = t.alive := by
  have hnn : 0 ≤ p.gold.tdiv 2 := Int.tdiv_nonneg hp (by norm_num)
  unfold duelDefeatSettle
  simp only
  split_ifs with hs
  · exact ⟨rfl, rfl, rfl, rfl⟩
  · exact ⟨(by omega : p.gold = p.gold - p.gold.tdiv 2),
      (by omega : t.gold = t.gold + p.gold.tdiv 2), rfl, rfl⟩

/-- The duel loop preserves the challenger's invariant (target damage draws
of at least 1, as the range `1..=target.attack` guarantees). -/
theorem duelFuel_fst_inv (pdmg tdmg : Nat → Int) (fuel : Nat) :
    ∀ (r : Nat) (p t : Player), PlayerInv p → (∀ i, 1 ≤ tdmg i) →
      PlayerInv (duelFuel pdmg tdmg fuel r p t).1 := by
  induction fuel with
  | zero => intro r p t hinv _; simpa [duelFuel] using hinv
  | succ n ih =>
    intro r p t hinv htd
    by_cases hg : p.alive = true ∧ t.alive = true
    · by_cases hv : t.current_hp - pdmg r ≤ 0
      · have hres : (duelFuel pdmg tdmg (n + 1) r p t).1 =
            (duelVictorySettle p { t with current_hp := t.current_hp - pdmg r }).1 := by
          simp [duelFuel, hg, hv]
        rw [hres]
        exact duelVictorySettle_fst_inv p _ hinv hg.1
      · by_cases hd : p.current_hp - tdmg r ≤ 0
        · have hres : (duelFuel pdmg tdmg (n + 1) r p t).1 =
              (duelDefeatSettle { p with current_hp := p.current_hp - tdmg r }
                { t with current_hp := t.current_hp - pdmg r }).1 := by
            simp [duelFuel, hg, hv, hd]
          rw [hres]
          obtain ⟨i1, i2, i3, i4, i5, i6, i7, i8, i9⟩ := hinv
          exact duelDefeatSettle_fst_inv _ _ i1 i2 i3 i7 i8 i9
        · have hres : (duelFuel pdmg tdmg (n + 1) r p t).1 =
              (duelFuel pdmg tdmg n (r + 1) { p with current_hp := p.current_hp - tdmg r }
                { t with current_hp := t.current_hp - pdmg r }).1 := by
            simp [duelFuel, hg, hv, hd]
          rw [hres]
          refine ih (r + 1) _ _ ?_ htd
          obtain ⟨i1, i2, i3, i4, i5, i6, i7, i8, i9⟩ := hinv
          have h1 : 1 ≤ tdmg r := htd r
          refine ⟨i1, i2, i3, by simp only; omega, by simp only; omega, ?_, i7, i8, i9⟩
          simp only
          rw [hg.1]
          simp only [true_iff]
          omega
    · simpa [duelFuel, hg] using hinv

/-- The duel loop preserves the target's invariant (challenger damage draws
of at least 1). -/
theorem duelFuel_snd_inv (pdmg tdmg : Nat → Int) (fuel : Nat) :
    ∀ (r : Nat) (c t : Player), PlayerInv t → (∀ i, 1 ≤ pdmg i) →
      PlayerInv (duelFuel pdmg tdmg fuel r c t).2.1 := by
  induction fuel with
  | zero => intro r c t hinv _; simpa [duelFuel] using hinv
  | succ n ih =>
    intro r c t hinv hpd
    by_cases hg : c.alive = true ∧ t.alive = true
    · by_cases hv : t.current_hp - pdmg r ≤ 0
      · have hres : (duelFuel pdmg tdmg (n + 1) r c t).2.1 =
            (duelVictorySettle c { t with current_hp := t.current_hp - pdmg r }).2.1 := by
          simp [duelFuel, hg, hv]
        rw [hres]
        obtain ⟨i1, i2, i3, i4, i5, i6, i7, i8, i9⟩ := hinv
        exact duelVictorySettle_snd_inv _ _ i1 i2 i3 i7 i8 i9
      · by_cases hd : c.current_hp - tdmg r ≤ 0
        · have hres : (duelFuel pdmg tdmg (n + 1) r c t).2.1 =
              (duelDefeatSettle { c with current_hp := c.current_hp - tdmg r }
                { t with current_hp := t.current_hp - pdmg r }).2.1 := by
            simp [duelFuel, hg, hv, hd]
          rw [hres]
          refine duelDefeatSettle_snd_inv _ _ ?_
          obtain ⟨i1, i2, i3, i4, i5, i6, i7, i8, i9⟩ := hinv
          have h1 : 1 ≤ pdmg r := hpd r
          refine ⟨i1, i2, i3, by simp only; omega, by simp only; omega, ?_, i7, i8, i9⟩
          simp only
          rw [hg.2]
          simp only [true_iff]
          omega
        · have hres : (duelFuel pdmg tdmg (n + 1) r c t).2.1 =
              (duelFuel pdmg tdmg n (r + 1) { c with current_hp := c.current_hp - tdmg r }
                { t with current_hp := t.current_hp - pdmg r }).2.1 := by
            simp [duelFuel, hg, hv, hd]
          rw [hres]
          refine ih (r + 1) _ _ ?_ hpd
          obtain ⟨i1, i2, i3, i4, i5, i6, i7, i8, i9⟩ := hinv
          have h1 : 1 ≤ pdmg r := hpd r
          refine ⟨i1, i2, i3, by simp only; omega, by simp only; omega, ?_, i7, i8, i9⟩
          simp only
          rw [hg.2]
          simp only [true_iff]
          omega
    · simpa [duelFuel, hg] using hinv

/-- Gold accounting of a whole duel: the sum of the two combatants' gold is
preserved, and whichever combatant ends up dead has lost exactly half its
starting gold (truncating division) to the other. -/
theorem duelFuel_gold (pdmg tdmg : Nat → Int) (fuel : Nat) :
    ∀ (r : Nat) (p t : Player), p.alive = true → t.alive = true →
      0 ≤ p.gold → 0 ≤ t.gold →
      (duelFuel pdmg tdmg fuel r p t).1.gold +
          (duelFuel pdmg tdmg fuel r p t).2.1.gold = p.gold + t.gold ∧
      ((duelFuel pdmg tdmg fuel r p t).2.1.alive = false →
        (duelFuel pdmg tdmg fuel r p t).1.gold = p.gold + t.gold.tdiv 2 ∧
        (duelFuel pdmg tdmg fuel r p t).2.1.gold = t.gold - t.gold.tdiv 2) ∧
      ((duelFuel pdmg tdmg fuel r p t).1.alive = false →
        (duelFuel pdmg tdmg fuel r p t).1.gold = p.gold - p.gold.tdiv 2 ∧
        (duelFuel pdmg tdmg fuel r p t).2.1.gold = t.gold + p.gold.tdiv 2) := by
  induction fuel with
  | zero =>
    intro r p t hp ht hpg htg
    refine ⟨by simp [duelFuel], ?_, ?_⟩
    · intro h
      rw [show (duelFuel pdmg tdmg 0 r p t).2.1 = t from rfl] at h
      rw [ht] at h
      cases h
    · intro h
      rw [show (duelFuel pdmg tdmg 0 r p t).1 = p from rfl] at h
      rw [hp] at h
      cases h
  | succ n ih =>
    intro r p t hp ht hpg htg
    have hg : p.alive = true ∧ t.alive = true := ⟨hp, ht⟩
    by_cases hv : t.current_hp - pdmg r ≤ 0
    · have hres : duelFuel pdmg tdmg (n + 1) r p t =
          duelVictorySettle p { t with current_hp := t.current_hp - pdmg r } := by
        simp [duelFuel, hg, hv]
      rw [hres]
      have hgold := duelVictorySettle_gold p
        { t with current_hp := t.current_hp - pdmg r } htg
      obtain ⟨g1, g2, g3, g4⟩ := hgold
      have et : ({ t with current_hp := t.current_hp - pdmg r } : Player).gold
          = t.gold := rfl
      rw [et] at g1 g2
      refine ⟨by omega, fun _ => ⟨g1, g2⟩, ?_⟩
      intro h
      rw [g3, hp] at h
      cases h
    · by_cases hd : p.current_hp - tdmg r ≤ 0
      · have hres : duelFuel pdmg tdmg (n + 1) r p t =
            duelDefeatSettle { p with current_hp := p.current_hp - tdmg r }
              { t with current_hp := t.current_hp - pdmg r } := by
          simp [duelFuel, hg, hv, hd]
        rw [hres]
        have hgold := duelDefeatSettle_gold
          { p with current_hp := p.current_hp - tdmg r }
          { t with current_hp := t.current_hp - pdmg r } hpg
        obtain ⟨g1, g2, g3, g4⟩ := hgold
        have ep : ({ p with current_hp := p.current_hp - tdmg r } : Player).gold
            = p.gold := rfl
        have et : ({ t with current_hp := t.current_hp - pdmg r } : Player).gold
            = t.gold := rfl
        rw [ep] at g1 g2
        rw [et] at g2
        refine ⟨by omega, ?_, fun _ => ⟨g1, g2⟩⟩
        intro h
        have et2 : ({ t with current_hp := t.current_hp - pdmg r } : Player).alive
            = t.alive := rfl
        rw [g4, et2, ht] at h
        cases h
      · have hres : duelFuel pdmg tdmg (n + 1) r p t =
            duelFuel pdmg tdmg n (r + 1) { p with current_hp := p.current_hp - tdmg r }
              { t with current_hp := t.current_hp - pdmg r } := by
          simp [duelFuel, hg, hv, hd]
        rw [hres]
        exact ih (r + 1) { p with current_hp := p.current_hp - tdmg r }
          { t with current_hp := t.current_hp - pdmg r } hp ht hpg htg

/-! ### Remaining operations and the reachability invariant -/

/-- A generated monster's experience reward is at least 1 (`.max(1)`). -/
theorem generate_monster_exp_reward (lvl : Int) (idx : Nat)
    (hpR atkR goldR : Int) :
    1 ≤ (generate_monster lvl idx hpR atkR goldR).exp_reward :=
  le_max_right _ 1

/-- A generated monster's gold reward is at least 1 (`.max(1)`). -/
theorem generate_monster_gold_reward (lvl : Int) (idx : Nat)
    (hpR atkR goldR : Int) :
    1 ≤ (generate_monster lvl idx hpR atkR goldR).gold_reward :=
  le_max_right _ 1

/-- Buying a tavern drink preserves the invariant (the tavern is only
reachable from the town loop, which runs while the player is alive). -/
theorem buy_drink_inv (p : Player) (hinv : PlayerInv p)
    (halive : p.alive = true) : PlayerInv (buy_drink p) := by
  obtain ⟨i1, i2, i3, i4, i5, i6, i7, i8, i9⟩ := hinv
  have hhp0 : 0 < p.current_hp := i6.mp halive
  have hdiv4 : 0 ≤ p.max_hp.tdiv 4 := Int.tdiv_nonneg (by omega) (by norm_num)
  have hdiv8 : 0 ≤ p.max_hp.tdiv 8 := Int.tdiv_nonneg (by omega) (by norm_num)
  simp only [buy_drink]
  split_ifs with h1 h2
  · exact ⟨i1, i2, i3, i4, i5, i6, i7, i8, i9⟩
  · exact ⟨i1, i2, i3,
      (by omega : (0 : Int) ≤ min (min (p.current_hp + max (p.max_hp.tdiv 4) 1)
        p.max_hp + max (p.max_hp.tdiv 8) 1) p.max_hp),
      (by omega : min (min (p.current_hp + max (p.max_hp.tdiv 4) 1)
        p.max_hp + max (p.max_hp.tdiv 8) 1) p.max_hp ≤ p.max_hp),
      (Iff.intro (fun _ => by omega) (fun _ => halive) :
        p.alive = true ↔ 0 < min (min (p.current_hp + max (p.max_hp.tdiv 4) 1)
          p.max_hp + max (p.max_hp.tdiv 8) 1) p.max_hp),
      i7, i8, i9⟩
  · exact ⟨i1, i2, i3,
      (by omega : (0 : Int) ≤ min (p.current_hp + max (p.max_hp.tdiv 4) 1) p.max_hp),
      (by omega : min (p.current_hp + max (p.max_hp.tdiv 4) 1) p.max_hp ≤ p.max_hp),
      (Iff.intro (fun _ => by omega) (fun _ => halive) :
        p.alive = true ↔ 0 < min (p.current_hp + max (p.max_hp.tdiv 4) 1) p.max_hp),
      i7, i8, i9⟩

/-- Flirting touches only `romance` and `spouse`, so the invariant survives. -/
theorem flirt_inv (p : Player) (hinv : PlayerInv p) :
    PlayerInv (flirt_with_violet p).1 := by
  obtain ⟨i1, i2, i3, i4, i5, i6, i7, i8, i9⟩ := hinv
  simp only [flirt_with_violet]
  split_ifs with h1 h2 h3
  · exact ⟨i1, i2, i3, i4, i5, i6, i7, i8, i9⟩
  · exact ⟨i1, i2, i3, i4, i5, i6, i7, i8, i9⟩
  · exact ⟨i1, i2, i3, i4, i5, i6, i7, i8, i9⟩
  · exact ⟨i1, i2, i3, i4, i5, i6, i7, i8, i9⟩

/-- The daily-reset bulk update restores the invariant for any record that
already satisfies it (revival sets `current_hp = max_hp > 0`). -/
theorem resetPlayer_inv (p : Player) (hinv : PlayerInv p) :
    PlayerInv (resetPlayer p) := by
  obtain ⟨i1, i2, i3, i4, i5, i6, i7, i8, i9⟩ := hinv
  exact ⟨i1, i2, i3, (by omega : (0 : Int) ≤ p.max_hp), le_refl p.max_hp,
    (Iff.intro (fun _ => by omega) (fun _ => rfl) : true = true ↔ 0 < p.max_hp),
    (by norm_num [MAX_DAILY_FOREST_FIGHTS] : (0 : Int) ≤ MAX_DAILY_FOREST_FIGHTS),
    i8, i9⟩

/-- Every core operation preserves the player invariant. -/
theorem step_playerInv {p q : Player} (hinv : PlayerInv p) (hstep : Step p q) :
    PlayerInv q := by
  cases hstep with
  | forest idx hpR atkR goldR pdmg mdmg fuel halive hfights hidx hhp hatk hgold hpd hmd =>
    have hexp : 0 ≤ (generate_monster p.level idx hpR atkR goldR).exp_reward := by
      have := generate_monster_exp_reward p.level idx hpR atkR goldR
      omega
    have hb := battleFuel_inv pdmg mdmg fuel 0 p
      (generate_monster p.level idx hpR atkR goldR) hinv (fun i => (hmd i).1) hexp
    have hff := battleFuel_fights pdmg mdmg fuel 0 p
      (generate_monster p.level idx hpR atkR goldR)
    obtain ⟨b1, b2, b3, b4, b5, b6, b7, b8, b9⟩ := hb
    unfold forestEncounter
    exact ⟨b1, b2, b3, b4, b5, b6,
      (by omega : (0 : Int) ≤ (battleFuel pdmg mdmg fuel 0 p
        (generate_monster p.level idx hpR atkR goldR)).1.forest_fights - 1),
      b8, b9⟩
  | duelChallenger t pdmg tdmg fuel halive htalive hpd htd =>
    exact duelFuel_fst_inv pdmg tdmg fuel 0 p t hinv (fun i => (htd i).1)
  | duelTarget c cdmg pdmg fuel hcalive halive hcd hpd =>
    exact duelFuel_snd_inv cdmg pdmg fuel 0 c p hinv (fun i => (hcd i).1)
  | tavernDrink halive => exact buy_drink_inv p hinv halive
  | flirt halive => exact flirt_inv p hinv
  | leveling =>
    have hno := try_level_up_noop p hinv.2.2.1
    rw [hno]
    exact hinv
  | dailyReset => exact resetPlayer_inv p hinv

/-- Every state reachable from the creation state satisfies the invariant. -/
theorem reachable_playerInv {p : Player} (h : Reachable p) : PlayerInv p := by
  induction h with
  | start name =>
    refine ⟨?_, ?_, ?_, ?_, ?_, ?_, ?_, ?_, ?_⟩ <;>
      simp [newPlayer, starting_player, MAX_DAILY_FOREST_FIGHTS]
  | step hr hs ih => exact step_playerInv ih hs

/-! ### Store-layer helper lemmas -/

/-- A per-row update statement never changes a row's id. -/
theorem applyUpdate_id (u q : Player) : (applyUpdate u q).id = q.id := by
  unfold applyUpdate
  split
  · rfl
  · rfl

/-- Updating every row commutes with looking a row up by id. -/
theorem find?_map_applyUpdate (u : Player) (i : Int) : ∀ l : List Player,
    (l.map (applyUpdate u)).find? (fun q => q.id == i) =
      (l.find? (fun q => q.id == i)).map (applyUpdate u) := by
  intro l
  induction l with
  | nil => rfl
  | cons a l ih =>
    have hc : ((applyUpdate u a).id == i) = (a.id == i) := by rw [applyUpdate_id]
    by_cases h : (a.id == i) = true
    · simp [List.find?_cons, hc, h]
    · have h2 : (a.id == i) = false := by
        cases hb : (a.id == i) with
        | false => rfl
        | true => exact absurd hb h
      simp [List.find?_cons, hc, h2, ih]

/-- If the marker already holds today's date, `daily_reset` is the identity. -/
theorem daily_reset_current (today : String) (db : Db)
    (h : db.last_reset = some today) : daily_reset today db = db := by
  unfold daily_reset
  rw [h]
  simp [lt_irrefl]

/-- Lower bound on the base attack of every monster template (the weakest,
"Wild Boar", has base attack 4; out-of-range indices fall back to the same
default the model uses). -/
theorem template_attack_lb (idx : Nat) :
    4 ≤ (MONSTER_TEMPLATES.getD idx ("Wild Boar", 15, 4)).2.2 := by
  match idx with
  | 0 => decide
  | 1 => decide
  | 2 => decide
  | 3 => decide
  | 4 => decide
  | 5 => decide
  | n + 6 =>
    have h : MONSTER_TEMPLATES.getD (n + 6) ("Wild Boar", 15, 4) =
        ("Wild Boar", 15, 4) := by
      simp [MONSTER_TEMPLATES, List.getD]
    rw [h]

/-- Every generated monster has attack at least 4: base attack at least 4,
level factor at least 1 for player level at least 1, non-negative roll. -/
theorem generate_monster_attack_lb (lvl : Int) (idx : Nat)
    (hpR atkR goldR : Int) (hlvl : 1 ≤ lvl) (hatk : 0 ≤ atkR) :
    4 ≤ (generate_monster lvl idx hpR atkR goldR).attack := by
  have hbase := template_attack_lb idx
  have hfac0 : 0 ≤ (lvl - 1).tdiv 2 := Int.tdiv_nonneg (by omega) (by norm_num)
  have hfac : (1 : Int) ≤ 1 + (lvl - 1).tdiv 2 := by omega
  have hmul : (4 : Int) * 1 ≤ (MONSTER_TEMPLATES.getD idx ("Wild Boar", 15, 4)).2.2 *
      (1 + (lvl - 1).tdiv 2) :=
    mul_le_mul hbase hfac zero_le_one (le_trans (by norm_num) hbase)
  show 4 ≤ (MONSTER_TEMPLATES.getD idx ("Wild Boar", 15, 4)).2.2 *
      (1 + (lvl - 1).tdiv 2) + atkR
  linarith

/-! ### The claims -/

/-- C1: In every concluded duel settlement (whichever combatant dies), the
sum of the two players' gold is preserved, and the amount transferred from
the loser to the winner is exactly `loser.gold_before / 2` (integer
division, rounding down): the winner ends with its gold plus that amount,
the loser with its gold minus that amount. -/
theorem duel_gold_conservation (pdmg tdmg : Nat → Int) (fuel r : Nat)
    (p t : Player) (halive : p.alive = true) (htalive : t.alive = true)
    (hpg : 0 ≤ p.gold) (htg : 0 ≤ t.gold) :
    (duelFuel pdmg tdmg fuel r p t).1.gold +
        (duelFuel pdmg tdmg fuel r p t).2.1.gold = p.gold + t.gold ∧
    ((duelFuel pdmg tdmg fuel r p t).2.1.alive = false →
      (duelFuel pdmg tdmg fuel r p t).1.gold = p.gold + t.gold.tdiv 2 ∧
      (duelFuel pdmg tdmg fuel r p t).2.1.gold = t.gold - t.gold.tdiv 2) ∧
    ((duelFuel pdmg tdmg fuel r p t).1.alive = false →
      (duelFuel pdmg tdmg fuel r p t).1.gold = p.gold - p.gold.tdiv 2 ∧
      (duelFuel pdmg tdmg fuel r p t).2.1.gold = t.gold + p.gold.tdiv 2) :=
  duelFuel_gold pdmg tdmg fuel r p t halive htalive hpg htg

/-- Witness for C1: a one-round duel in which the challenger one-shots the
target; gold is conserved. -/
theorem duel_gold_conservation_witness :
    (duelFuel (fun _ => 25) (fun _ => 1) 1 0 (newPlayer "C") (newPlayer "T")).1.gold +
        (duelFuel (fun _ => 25) (fun _ => 1) 1 0 (newPlayer "C") (newPlayer "T")).2.1.gold =
      (newPlayer "C").gold + (newPlayer "T").gold :=
  (duel_gold_conservation (fun _ => 25) (fun _ => 1) 1 0 (newPlayer "C")
    (newPlayer "T") rfl rfl (by decide) (by decide)).1

/-- C2: The duel settlement writes both combatants' records in one
transaction: whatever the failure behaviour, the resulting store is either
completely unchanged or has both records updated with the full settlement
field set; a state in which exactly one of the two records reflects the duel
is not among the possible outcomes.  (The atomicity of the underlying SQL
transaction is the modelling assumption `run_update_tx` makes explicit.) -/
theorem duel_settlement_atomic (db : Db) (p t : Player) (fails : Bool)
    (hne : p.id ≠ t.id) :
    save_duel db p t fails = db ∨
    (findById (save_duel db p t fails) p.id =
        (findById db p.id).map (mergeFields p) ∧
     findById (save_duel db p t fails) t.id =
        (findById db t.id).map (mergeFields t)) := by
  cases fails with
  | true => left; rfl
  | false =>
    right
    have hplayers : (save_duel db p t false).players =
        (db.players.map (applyUpdate p)).map (applyUpdate t) := rfl
    constructor
    · show ((db.players.map (applyUpdate p)).map (applyUpdate t)).find?
          (fun q => q.id == p.id) = (db.players.find? (fun q => q.id == p.id)).map
          (mergeFields p)
      rw [find?_map_applyUpdate, find?_map_applyUpdate]
      cases hf : db.players.find? (fun q => q.id == p.id) with
      | none => rfl
      | some a =>
        have haid : a.id = p.id :=
          eq_of_beq (@List.find?_some Player (fun q => q.id == p.id) a db.players hf)
        have h1 : applyUpdate p a = mergeFields p a := by
          unfold applyUpdate
          rw [if_pos haid]
        have h2 : applyUpdate t (mergeFields p a) = mergeFields p a := by
          unfold applyUpdate
          rw [if_neg]
          show ¬ (mergeFields p a).id = t.id
          have : (mergeFields p a).id = a.id := rfl
          rw [this, haid]
          exact hne
        simp [h1, h2]
    · show ((db.players.map (applyUpdate p)).map (applyUpdate t)).find?
          (fun q => q.id == t.id) = (db.players.find? (fun q => q.id == t.id)).map
          (mergeFields t)
      rw [find?_map_applyUpdate, find?_map_applyUpdate]
      cases hf : db.players.find? (fun q => q.id == t.id) with
      | none => rfl
      | some a =>
        have haid : a.id = t.id :=
          eq_of_beq (@List.find?_some Player (fun q => q.id == t.id) a db.players hf)
        have h1 : applyUpdate p a = a := by
          unfold applyUpdate
          rw [if_neg]
          rw [haid]
          exact fun h => hne h.symm
        have h2 : applyUpdate t a = mergeFields t a := by
          unfold applyUpdate
          rw [if_pos haid]
        simp [h1, h2]

/-- Witness for C2: a commit over the two sample records of `dbStale`
(distinct ids 1 and 3) leaves the store unchanged or fully settled. -/
theorem duel_settlement_atomic_witness :
    save_duel dbStale (starting_player 1 "Alice" "") deadPlayer false = dbStale ∨
    (findById (save_duel dbStale (starting_player 1 "Alice" "") deadPlayer false) 1 =
        (findById dbStale 1).map (mergeFields (starting_player 1 "Alice" "")) ∧
     findById (save_duel dbStale (starting_player 1 "Alice" "") deadPlayer false) 3 =
        (findById dbStale 3).map (mergeFields deadPlayer)) :=
  duel_settlement_atomic dbStale (starting_player 1 "Alice" "") deadPlayer false
    (by decide)

/-- C3: every player state reachable from the fixed creation state via the
core operations satisfies `0 ≤ current_hp ≤ max_hp`,
`alive = (current_hp > 0)`, `forest_fights ≥ 0` and `0 ≤ exp < level*100`. -/
theorem reachable_state_invariants (p : Player) (h : Reachable p) :
    0 ≤ p.current_hp ∧ p.current_hp ≤ p.max_hp ∧
    (p.alive = true ↔ 0 < p.current_hp) ∧
    0 ≤ p.forest_fights ∧ 0 ≤ p.exp ∧ p.exp < p.level * 100 := by
  obtain ⟨i1, i2, i3, i4, i5, i6, i7, i8, i9⟩ := reachable_playerInv h
  exact ⟨i4, i5, i6, i7, i2, i3⟩

/-- Witness for C3: the creation state itself. -/
theorem reachable_state_invariants_witness :
    0 ≤ (newPlayer "hero").current_hp ∧
    (newPlayer "hero").current_hp ≤ (newPlayer "hero").max_hp ∧
    ((newPlayer "hero").alive = true ↔ 0 < (newPlayer "hero").current_hp) ∧
    0 ≤ (newPlayer "hero").forest_fights ∧ 0 ≤ (newPlayer "hero").exp ∧
    (newPlayer "hero").exp < (newPlayer "hero").level * 100 :=
  reachable_state_invariants (newPlayer "hero") (Reachable.start "hero")

/-- C4: the Leveling Policy is the loop of `try_level_up`; on a level-1
player with 250 experience one call yields level 2 with 150 experience left
(one threshold of 100 consumed, the level-2 threshold of 200 not reached),
one level-up reported, and the per-iteration stat deltas applied once:
`max_hp` 20→30, full heal to 30, attack 5→7, defense 2→3. -/
theorem leveling_policy_trace :
    (try_level_up { newPlayer "p" with exp := 250 }).1.level = 2 ∧
    (try_level_up { newPlayer "p" with exp := 250 }).1.exp = 150 ∧
    (try_level_up { newPlayer "p" with exp := 250 }).1.max_hp = 30 ∧
    (try_level_up { newPlayer "p" with exp := 250 }).1.current_hp = 30 ∧
    (try_level_up { newPlayer "p" with exp := 250 }).1.attack = 7 ∧
    (try_level_up { newPlayer "p" with exp := 250 }).1.defense = 3 ∧
    (try_level_up { newPlayer "p" with exp := 250 }).2.length = 1 := by
  decide

/-- C5: the Daily Reset Coordinator is idempotent per date: running it twice
on the same date equals running it once, and when the stored marker already
equals today's date the call changes nothing (no player mutated, no news
appended). -/
theorem daily_reset_idempotent (today : String) (db : Db) :
    daily_reset today (daily_reset today db) = daily_reset today db ∧
    (db.last_reset = some today → daily_reset today db = db) := by
  constructor
  · by_cases h : db.last_reset.getD "" < today
    · have h1 : daily_reset today db =
          { db with players := db.players.map resetPlayer,
                    news := db.news ++ [Event.reset],
                    last_reset := some today } := by
        unfold daily_reset
        rw [if_pos h]
      rw [h1]
      exact daily_reset_current today _ rfl
    · have h1 : daily_reset today db = db := by
        unfold daily_reset
        rw [if_neg h]
      rw [h1]
      exact h1
  · intro h
    exact daily_reset_current today db h

/-- Witness for C5: with the marker already current, the reset is a no-op on
a store holding a dead player. -/
theorem daily_reset_idempotent_witness :
    daily_reset "2025-10-12" dbCurrent = dbCurrent :=
  (daily_reset_idempotent "2025-10-12" dbCurrent).2 rfl

/-- C6: when the stored marker is lexicographically older than today (or
absent, read as the empty string), `daily_reset` — in one transaction —
sets every player's `forest_fights` to the daily maximum 10, `alive` to
true and `current_hp` to `max_hp` regardless of prior state, appends
exactly one reset news event, and upserts the marker to today's date. -/
theorem daily_reset_stale_marker (today : String) (db : Db)
    (h : db.last_reset.getD "" < today) :
    (daily_reset today db).players = db.players.map resetPlayer ∧
    (∀ q ∈ (daily_reset today db).players,
      q.forest_fights = MAX_DAILY_FOREST_FIGHTS ∧ q.alive = true ∧
      q.current_hp = q.max_hp) ∧
    (daily_reset today db).news = db.news ++ [Event.reset] ∧
    (daily_reset today db).last_reset = some today := by
  have h1 : daily_reset today db =
      { db with players := db.players.map resetPlayer,
                news := db.news ++ [Event.reset],
                last_reset := some today } := by
    unfold daily_reset
    rw [if_pos h]
  rw [h1]
  refine ⟨rfl, ?_, rfl, rfl⟩
  intro q hq
  simp only [List.mem_map] at hq
  obtain ⟨a, _, rfl⟩ := hq
  exact ⟨rfl, rfl, rfl⟩

/-- Witness for C6: a store with yesterday's marker gets the news event and
the fresh marker; its dead player is covered by the universally quantified
bulk clause. -/
theorem daily_reset_stale_marker_witness :
    (daily_reset "2025-10-12" dbStale).news = dbStale.news ++ [Event.reset] ∧
    (daily_reset "2025-10-12" dbStale).last_reset = some "2025-10-12" :=
  (daily_reset_stale_marker "2025-10-12" dbStale
    (by
      show ("2025-10-11" : String) < "2025-10-12"
      rw [String.lt_iff_toList_lt]
      decide)).2.2

/-- C7: a forest encounter entered alive at 5 HP, in which the monster
survives the player's first strike and retaliates for more than 5 damage,
ends with the player dead at 0 HP, exactly one news event — the death
event — emitted, and `forest_fights` decremented by exactly 1 (the
decrement runs once per encounter, after the battle loop). -/
theorem forest_death_scenario (p : Player) (m : Monster)
    (pdmg mdmg : Nat → Int) (fuel : Nat) (hfuel : 0 < fuel)
    (halive : p.alive = true) (hhp : p.current_hp = 5)
    (hp1 : 1 ≤ pdmg 0) (hsurv : pdmg 0 < m.hp) (hdmg : 5 < mdmg 0) :
    (forestEncounter p m pdmg mdmg fuel).1.alive = false ∧
    (forestEncounter p m pdmg mdmg fuel).1.current_hp = 0 ∧
    (forestEncounter p m pdmg mdmg fuel).2 = [Event.forestDeath p.name m.name] ∧
    (forestEncounter p m pdmg mdmg fuel).1.forest_fights = p.forest_fights - 1 := by
  obtain ⟨f, rfl⟩ : ∃ f, fuel = f + 1 := ⟨fuel - 1, by omega⟩
  have hg : p.alive = true ∧ 0 < m.hp := ⟨halive, by omega⟩
  have hv : ¬ (m.hp - pdmg 0 ≤ 0) := by omega
  have hd : p.current_hp - mdmg 0 ≤ 0 := by omega
  have hres : battleFuel pdmg mdmg (f + 1) 0 p m =
      ({ p with current_hp := 0, alive := false },
       { m with hp := m.hp - pdmg 0 },
       [Event.forestDeath p.name m.name]) := by
    simp [battleFuel, hg, hv, hd]
  unfold forestEncounter
  rw [hres]
  exact ⟨rfl, rfl, rfl, rfl⟩

/-- Witness for C7: a hero at 5 HP against a dragon that hits for 50. -/
theorem forest_death_scenario_witness :
    (forestEncounter heroAt5 strongMonster (fun _ => 3) (fun _ => 50) 1).1.alive = false ∧
    (forestEncounter heroAt5 strongMonster (fun _ => 3) (fun _ => 50) 1).1.current_hp = 0 ∧
    (forestEncounter heroAt5 strongMonster (fun _ => 3) (fun _ => 50) 1).2 =
      [Event.forestDeath heroAt5.name strongMonster.name] ∧
    (forestEncounter heroAt5 strongMonster (fun _ => 3) (fun _ => 50) 1).1.forest_fights =
      heroAt5.forest_fights - 1 :=
  forest_death_scenario heroAt5 strongMonster (fun _ => 3) (fun _ => 50) 1
    (by decide) rfl rfl (by decide) (by decide) (by decide)

/-- C8 counterexample: the claim fails on the code.  "alice" and "Alice"
differ only in letter case, a player named "Alice" is stored in `dbAlice`,
yet `create_player` succeeds for "alice" and appends a second record: the
schema's UNIQUE constraint on `name` is exact-match, and the only index on
`LOWER(name)` is a non-unique lookup index. -/
theorem create_player_case_counterexample :
    strLower "alice" = strLower "Alice" ∧ "alice" ≠ "Alice" ∧
    create_player (fun s => s) dbAlice "alice" "" =
      Except.ok
        ({ next_id := 3,
           players := [starting_player 1 "Alice" "", starting_player 2 "alice" ""],
           news := [], last_reset := none },
         starting_player 2 "alice" "") := by
  refine ⟨by decide, by decide, ?_⟩
  rfl

/-- C8 amended: `create_player` enforces name uniqueness exactly
(case-sensitively) on the trimmed name: it fails with the duplicate error
precisely when a stored player carries the identical trimmed name, and
otherwise succeeds, appending one new record — so a name differing from a
stored one only in letter case is accepted.  (Case-insensitive protection
exists only in the caller: `main` looks the name up case-insensitively
before ever offering creation.) -/
theorem create_player_exact_unique (hash : String → String) (db : Db)
    (name password : String) :
    (db.players.any (fun q => q.name = strTrim name) = true →
      create_player hash db name password = Except.error DbError.uniqueViolation) ∧
    (db.players.any (fun q => q.name = strTrim name) = false →
      create_player hash db name password = Except.ok
        ({ db with
             next_id := db.next_id + 1,
             players := db.players ++ [starting_player db.next_id (strTrim name)
               (if strTrim password = "" then "" else hash (strTrim password))] },
         starting_player db.next_id (strTrim name)
           (if strTrim password = "" then "" else hash (strTrim password)))) := by
  constructor
  · intro h
    simp [create_player, h]
  · intro h
    simp [create_player, h]

/-- Witness for C8's amended claim: creating a second exact "Alice" fails
with the duplicate error. -/
theorem create_player_exact_unique_witness :
    create_player (fun s => s) dbAlice "Alice" "x" =
      Except.error DbError.uniqueViolation :=
  (create_player_exact_unique (fun s => s) dbAlice "Alice" "x").1 (by decide)

/-- C9: `init_db_pool` seeds the `last_reset` marker with today's date when
the key is absent and leaves it alone otherwise (insert, do nothing on
conflict); consequently on a fresh database the startup sequence of `main`
(`init_db_pool` then `daily_reset` on the same date) leaves every player
record unchanged and appends no reset news event — the absent-marker reset
branch is never taken through this path. -/
theorem init_seed_then_reset_noop (today : String) (db : Db) :
    (db.last_reset = none →
      (init_db_seed today db).last_reset = some today ∧
      daily_reset today (init_db_seed today db) = init_db_seed today db) ∧
    (∀ v, db.last_reset = some v → init_db_seed today db = db) := by
  constructor
  · intro h
    have h1 : init_db_seed today db = { db with last_reset := some today } := by
      unfold init_db_seed
      rw [h]
    rw [h1]
    exact ⟨rfl, daily_reset_current today _ rfl⟩
  · intro v h
    unfold init_db_seed
    rw [h]

/-- Witness for C9: the fresh store. -/
theorem init_seed_then_reset_noop_witness :
    daily_reset "2025-10-12" (init_db_seed "2025-10-12" dbFresh) =
      init_db_seed "2025-10-12" dbFresh :=
  ((init_seed_then_reset_noop "2025-10-12" dbFresh).1 rfl).2

/-- C10: every random-range draw in combat and monster generation has a
non-empty range on reachable inputs: every reachable player has attack at
least 5 (created at 5, only ever increased), so `1..=player.attack` is
non-empty; the template table is non-empty; and every monster generated for
a player of level at least 1 with an in-range attack roll has attack at
least 4, so `1..=monster.attack` and `1..=monster.attack*3` are non-empty. -/
theorem rng_draw_ranges_nonempty :
    (∀ p : Player, Reachable p → 5 ≤ p.attack ∧ 1 ≤ p.attack) ∧
    0 < MONSTER_TEMPLATES.length ∧
    (∀ (lvl : Int) (idx : Nat) (hpR atkR goldR : Int), 1 ≤ lvl → 0 ≤ atkR →
      4 ≤ (generate_monster lvl idx hpR atkR goldR).attack ∧
      1 ≤ (generate_monster lvl idx hpR atkR goldR).attack ∧
      1 ≤ (generate_monster lvl idx hpR atkR goldR).attack * 3) := by
  refine ⟨?_, by decide, ?_⟩
  · intro p h
    have h9 : 5 ≤ p.attack := (reachable_playerInv h).2.2.2.2.2.2.2.2
    exact ⟨h9, by omega⟩
  · intro lvl idx hpR atkR goldR hlvl hatk
    have h4 := generate_monster_attack_lb lvl idx hpR atkR goldR hlvl hatk
    exact ⟨h4, by omega, by omega⟩

/-- Witness for C10: the creation state and a level-1 monster roll. -/
theorem rng_draw_ranges_nonempty_witness :
    (5 ≤ (newPlayer "w").attack ∧ 1 ≤ (newPlayer "w").attack) ∧
    4 ≤ (generate_monster 1 0 0 0 1).attack :=
  ⟨rng_draw_ranges_nonempty.1 (newPlayer "w") (Reachable.start "w"),
   (rng_draw_ranges_nonempty.2.2 1 0 0 0 1 (by decide) (by decide)).1⟩

end Lord
